import Mathlib

/-!
Verification of the Pawkit desktop drag-file subsystem
(`src/packages/desktop/src-tauri/src/lib.rs`, lines 226-619).

The Rust code is shallowly embedded: strings become Lean `String`
(Rust `char` iteration = Lean `List Char`, both Unicode scalar values),
`serde_json::Value` becomes the inductive `Json`, and file-system
effects become explicit values (a written file is the pair
filename × contents; the file system in `cleanup_drag_file` is a list
of paths).  `serde_json::from_str` is an external library call; its
result is passed to `plate_json_to_markdown` as an
`Option (List Json)` parameter (`none` = parse error), exactly the
`Result` the Rust code matches on.  All definitions are computable and
recursion is structural, so concrete runs evaluate by `decide`/`rfl`.
-/

/-- Unicode White_Space test, the predicate behind Rust's `str::trim`
(`char::is_whitespace`). -/
def rustIsWhitespace (c : Char) : Bool :=
  let n := c.toNat
  n = 0x20 || (0x9 ≤ n && n ≤ 0xd) || n = 0x85 || n = 0xa0 || n = 0x1680 ||
    (0x2000 ≤ n && n ≤ 0x200a) || n = 0x2028 || n = 0x2029 || n = 0x202f ||
    n = 0x205f || n = 0x3000

/-- Drop leading and trailing whitespace from a character list,
modelling Rust's `str::trim`. -/
def trimList (l : List Char) : List Char :=
  ((l.dropWhile rustIsWhitespace).reverse.dropWhile rustIsWhitespace).reverse

/-- Rust's `str::trim().to_string()`. -/
def rustTrim (s : String) : String :=
  String.mk (trimList s.toList)

/-- The nine characters `sanitize_filename` replaces (lib.rs line 229). -/
def isForbiddenChar (c : Char) : Bool :=
  c == '/' || c == '\\' || c == ':' || c == '*' || c == '?' || c == '"' ||
    c == '<' || c == '>' || c == '|'

/-- One step of the `map` in `sanitize_filename`: a forbidden character
becomes an underscore, anything else is kept. -/
def sanitizeChar (c : Char) : Char :=
  if isForbiddenChar c then '_' else c

/-- `sanitize_filename` (lib.rs lines 226-236): map each character,
keep the first 100, then trim surrounding whitespace. -/
def sanitize_filename (name : String) : String :=
  String.mk (trimList ((name.toList.map sanitizeChar).take 100))

example : sanitize_filename "a/b\\c:d*e?f\"g<h>i|j" = "a_b_c_d_e_f_g_h_i_j" := by decide

/-- JSON values, the embedding of `serde_json::Value`.  Numbers are kept
as integers: no code path of this subsystem reads a numeric field, so
float representation is irrelevant here. -/
inductive Json where
  | null : Json
  | bool : Bool → Json
  | num : Int → Json
  | str : String → Json
  | arr : List Json → Json
  | obj : List (String × Json) → Json

/-- Key lookup in an object's field list.  `serde_json` maps parsed from
text have unique keys, so first-match lookup agrees with the map lookup
of `Value::get`. -/
def lookupField : List (String × Json) → String → Option Json
  | [], _ => none
  | (k, v) :: rest, key => if k = key then some v else lookupField rest key

/-- `Value::get(key)`: `Some` only on objects that carry the key. -/
def Json.get : Json → String → Option Json
  | .obj fs, key => lookupField fs key
  | _, _ => none

/-- `Value::as_str`. -/
def Json.asStr : Json → Option String
  | .str s => some s
  | _ => none

/-- `Value::as_bool`. -/
def Json.asBool : Json → Option Bool
  | .bool b => some b
  | _ => none

/-- `Value::as_array`. -/
def Json.asArr : Json → Option (List Json)
  | .arr xs => some xs
  | _ => none

/-- `node.get(key).and_then(|v| v.as_bool()).unwrap_or(false)`. -/
def getBoolD (node : Json) (key : String) : Bool :=
  ((node.get key).bind Json.asBool).getD false

/-- `node.get(key).and_then(|v| v.as_str()).unwrap_or(dflt)`. -/
def getStrD (node : Json) (key : String) (dflt : String) : String :=
  ((node.get key).bind Json.asStr).getD dflt

/-- The child list used for recursion: `node.get("children")` as an
array, or empty when absent or not an array (the `unwrap_or_default`
of lib.rs lines 490-492). -/
def childNodes (node : Json) : List Json :=
  ((node.get "children").bind Json.asArr).getD []

/-- Rust's `str::lines`, one structural pass: split at `'\n'`, strip a
trailing `'\r'` from a line only when a `'\n'` ended it, and do not
yield a final empty line for a trailing `'\n'`.  `acc` holds the current
line reversed. -/
def linesCore : List Char → List Char → List (List Char)
  | [], acc => match acc with
    | [] => []
    | _ => [acc.reverse]
  | c :: cs, acc =>
    if c = '\n' then
      (match acc with
        | '\r' :: acc2 => acc2.reverse
        | _ => acc.reverse) :: linesCore cs []
    else linesCore cs (c :: acc)

/-- `children_md.lines()` as a list of strings. -/
def rustLines (s : String) : List String :=
  (linesCore s.toList []).map String.mk

example : rustLines "a\r\nb\n\nc\n" = ["a", "b", "", "c"] := by decide
example : rustLines "" = [] := by decide
example : rustLines "\n" = [""] := by decide
example : rustLines "a\r" = ["a\r"] := by decide

/-- The text-leaf branch of `plate_node_to_markdown` (lib.rs lines
464-482): wrap the text in the marks that are set, in the fixed source
order bold, italic, code, strikethrough, highlight. -/
def renderText (node : Json) (t : String) : String :=
  let result := t
  let result := if getBoolD node "bold" then "**" ++ result ++ "**" else result
  let result := if getBoolD node "italic" then "*" ++ result ++ "*" else result
  let result := if getBoolD node "code" then "`" ++ result ++ "`" else result
  let result := if getBoolD node "strikethrough" then "~~" ++ result ++ "~~" else result
  let result := if getBoolD node "highlight" then "==" ++ result ++ "==" else result
  result

/-- Modelled from the spec's words (section 4.1 / claim C2): sequential
mark wrapping of a text `t` under an explicit mark set, bold first and
highlight last.  Compared with the source-derived `renderText`. -/
def specMarkWrap (t : String) (bold italic code strikethrough highlight : Bool) : String :=
  let r := t
  let r := if bold then "**" ++ r ++ "**" else r
  let r := if italic then "*" ++ r ++ "*" else r
  let r := if code then "`" ++ r ++ "`" else r
  let r := if strikethrough then "~~" ++ r ++ "~~" else r
  let r := if highlight then "==" ++ r ++ "==" else r
  r

/-- The element-dispatch of `plate_node_to_markdown` (lib.rs lines
486-541), taking the already-rendered children. -/
def renderElement (node : Json) (children_md : String) : String :=
  let node_type := getStrD node "type" ""
  match node_type with
  | "p" => children_md ++ "\n"
  | "h1" => "# " ++ children_md ++ "\n"
  | "h2" => "## " ++ children_md ++ "\n"
  | "h3" => "### " ++ children_md ++ "\n"
  | "h4" => "#### " ++ children_md ++ "\n"
  | "h5" => "##### " ++ children_md ++ "\n"
  | "h6" => "###### " ++ children_md ++ "\n"
  | "blockquote" =>
    String.intercalate "\n" ((rustLines children_md).map (fun line => "> " ++ line)) ++ "\n"
  | "ul" | "ol" => children_md
  | "li" | "lic" => "- " ++ rustTrim children_md ++ "\n"
  | "action_item" =>
    let checked := getBoolD node "checked"
    let checkbox := if checked then "[x]" else "[ ]"
    "- " ++ checkbox ++ " " ++ rustTrim children_md ++ "\n"
  | "code_block" =>
    let lang := getStrD node "lang" ""
    "```" ++ lang ++ "\n" ++ rustTrim children_md ++ "\n```\n"
  | "code_line" => children_md
  | "link" | "a" =>
    let url := getStrD node "url" ""
    "[" ++ children_md ++ "](" ++ url ++ ")"
  | "hr" => "---\n"
  | "img" | "image" =>
    let url := getStrD node "url" ""
    let alt := getStrD node "alt" ""
    "![" ++ alt ++ "](" ++ url ++ ")\n"
  | "mention" =>
    let value := getStrD node "value" ""
    "[[" ++ value ++ "]]"
  | "callout" =>
    let variant := getStrD node "variant" "note"
    let callout_content :=
      String.intercalate "\n" ((rustLines children_md).map (fun line => "> " ++ line))
    "> [!" ++ variant ++ "]\n" ++ callout_content ++ "\n"
  | _ => children_md

mutual

/-- Structural size of a JSON value, the fuel measure for the node
renderer. -/
def Json.size : Json → Nat
  | .null => 1
  | .bool _ => 1
  | .num _ => 1
  | .str _ => 1
  | .arr xs => 1 + sizeArr xs
  | .obj fs => 1 + sizeObj fs

/-- Size of an array's elements. -/
def sizeArr : List Json → Nat
  | [] => 0
  | x :: xs => Json.size x + sizeArr xs + 1

/-- Size of an object's fields. -/
def sizeObj : List (String × Json) → Nat
  | [] => 0
  | (_, v) :: fs => Json.size v + sizeObj fs + 1

end

/-- `plate_node_to_markdown` with explicit structural fuel; with
`Json.size node` fuel the zero case is unreachable
(`renderNodeF_congr` below), and structural fuel keeps every concrete
run kernel-reducible. -/
def renderNodeF : Nat → Json → Nat → String
  | 0, _, _ => ""
  | fuel + 1, node, depth =>
    match (Json.get node "text").bind Json.asStr with
    | some t => renderText node t
    | none =>
      renderElement node
        (String.join ((childNodes node).map (fun c => renderNodeF fuel c (depth + 1))))

/-- `plate_node_to_markdown` (lib.rs lines 462-542). -/
def plate_node_to_markdown (node : Json) (depth : Nat) : String :=
  renderNodeF (Json.size node) node depth

/-- Rust `str::replace(pat, rep)`: replace the leftmost occurrence,
continue after the replacement (it is not rescanned), left to right.
Fuel `l.length` suffices: each step consumes at least one character of
`l` (every pattern used in the stripper is non-empty). -/
def replaceFuel : Nat → List Char → List Char → List Char → List Char
  | 0, l, _, _ => l
  | _ + 1, [], _, _ => []
  | fuel + 1, c :: cs, pat, rep =>
    if pat.isPrefixOf (c :: cs) then rep ++ replaceFuel fuel ((c :: cs).drop pat.length) pat rep
    else c :: replaceFuel fuel cs pat rep

/-- `String::replace` on strings. -/
def rustReplace (s pat rep : String) : String :=
  String.mk (replaceFuel s.toList.length s.toList pat.toList rep.toList)

example : rustReplace "a</p>b</p>" "</p>" "\n\n" = "a\n\nb\n\n" := by decide

/-- One pass of `Regex::new("<[^>]+>").replace_all(_, "")` (lib.rs
lines 571-572): drop every span of a `'<'`, one or more non-`'>'`
characters, and a `'>'`.  The scan state is `none` outside a candidate
span and `some buf` after a `'<'`, with `buf` the (reversed) non-`'>'`
characters read since; `"<>"` is not a match (the class needs one or
more characters) and is emitted verbatim, and a `'<'` never followed by
`'>'` is emitted verbatim at end of input. -/
def stripTagsCore : List Char → Option (List Char) → List Char
  | [], none => []
  | [], some buf => '<' :: buf.reverse
  | c :: cs, none =>
    if c = '<' then stripTagsCore cs (some [])
    else c :: stripTagsCore cs none
  | c :: cs, some buf =>
    if c = '>' then
      match buf with
      | [] => '<' :: '>' :: stripTagsCore cs none
      | _ => stripTagsCore cs none
    else stripTagsCore cs (some (c :: buf))

example : String.mk (stripTagsCore "a<b<c>d<>e<f".toList none) = "ad<>e<f" := by decide

/-- One pass of `Regex::new("\\n{3,}").replace_all(_, "\\n\\n")`
(lib.rs lines 575-576): a maximal run of three or more newlines becomes
exactly two.  `k` counts the newlines of the run being read. -/
def collapseCore : List Char → Nat → List Char
  | [], k => List.replicate (if 3 ≤ k then 2 else k) '\n'
  | c :: cs, k =>
    if c = '\n' then collapseCore cs (k + 1)
    else List.replicate (if 3 ≤ k then 2 else k) '\n' ++ c :: collapseCore cs 0

example : String.mk (collapseCore "a\n\nb\n\n\n\nc".toList 0) = "a\n\nb\n\nc" := by decide

/-- `strip_html_to_markdown` (lib.rs lines 545-579): the ordered literal
substitutions, then the tag-stripping pass, then newline collapsing,
then a final trim. -/
def strip_html_to_markdown (html : String) : String :=
  let r := html
  let r := rustReplace r "<br>" "\n"
  let r := rustReplace r "<br/>" "\n"
  let r := rustReplace r "<br />" "\n"
  let r := rustReplace r "</p>" "\n\n"
  let r := rustReplace r "<p>" ""
  let r := rustReplace r "</div>" "\n"
  let r := rustReplace r "<div>" ""
  let r := rustReplace r "<strong>" "**"
  let r := rustReplace r "</strong>" "**"
  let r := rustReplace r "<b>" "**"
  let r := rustReplace r "</b>" "**"
  let r := rustReplace r "<em>" "_"
  let r := rustReplace r "</em>" "_"
  let r := rustReplace r "<i>" "_"
  let r := rustReplace r "</i>" "_"
  let r := rustReplace r "&nbsp;" " "
  let r := rustReplace r "&amp;" "&"
  let r := rustReplace r "&lt;" "<"
  let r := rustReplace r "&gt;" ">"
  let r := rustReplace r "&quot;" "\""
  let r := String.mk (stripTagsCore r.toList none)
  let r := String.mk (collapseCore r.toList 0)
  rustTrim r

example : strip_html_to_markdown "<p>Hello <strong>World</strong></p>" = "Hello **World**" := by decide

/-- `is_plate_json` (lib.rs lines 434-437): the trimmed content starts
with `'['` and ends with `']'`. -/
def is_plate_json (content : String) : Bool :=
  let t := trimList content.toList
  t.head? == some '[' && t.getLast? == some ']'

example : is_plate_json " [1] " = true := by decide
example : is_plate_json "<p>x</p>" = false := by decide

/-- `plate_json_to_markdown` (lib.rs lines 440-459).  `parsed` is the
outcome of the external `serde_json::from_str::<Vec<Value>>(content)`:
`some nodes` for `Ok`, `none` for `Err`.  On success every non-empty
node rendering is emitted followed by one `'\n'`, and the result is
trimmed; on parse failure the HTML stripper runs on the raw content. -/
def plate_json_to_markdown (parsed : Option (List Json)) (content : String) : String :=
  match parsed with
  | some nodes =>
    rustTrim (String.join (nodes.map (fun node =>
      let md := plate_node_to_markdown node 0
      if md.isEmpty then "" else md ++ "\n")))
  | none => strip_html_to_markdown content

/-- `create_note_file` (lib.rs lines 412-431), modelled as the file it
writes on success: the name `sanitize_filename(title) + ".md"` inside
the workspace directory, and the body `"# " + title + "\n\n" +` the
detected conversion of `content`.  Directory creation and the write
itself are external I/O; their failures propagate unchanged and write
nothing. -/
def create_note_file (parsed : Option (List Json)) (title content : String) : String × String :=
  let filename := sanitize_filename title ++ ".md"
  let clean_content :=
    if is_plate_json content then plate_json_to_markdown parsed content
    else strip_html_to_markdown content
  (filename, "# " ++ title ++ "\n\n" ++ clean_content)

/-- `std::fs::remove_file`: deletes the path when present, otherwise an
error, touching nothing else. -/
def fsRemoveFile (fs : List String) (path : String) : Except String (List String) :=
  if path ∈ fs then Except.ok (fs.erase path) else Except.error "No such file or directory"

/-- Rust `str::contains(needle)`: some slice of `l` starts with
`needle`. -/
def hasSubstr : List Char → List Char → Bool
  | [], needle => needle.isEmpty
  | c :: cs, needle => needle.isPrefixOf (c :: cs) || hasSubstr cs needle

example : hasSubstr "/tmp/pawkit-drag/x.md".toList "pawkit-drag".toList = true := by decide
example : hasSubstr "/etc/passwd".toList "pawkit-drag".toList = false := by decide

/-- `cleanup_drag_file` (lib.rs lines 583-589) over an explicit file
system (the list of existing paths): a delete is attempted only when
the path's text contains `"pawkit-drag"`; otherwise the call is a
successful no-op.  Returns the command's result and the file system
afterwards. -/
def cleanup_drag_file (fs : List String) (path : String) : Except String Unit × List String :=
  if hasSubstr path.toList "pawkit-drag".toList then
    match fsRemoveFile fs path with
    | Except.ok fs2 => (Except.ok (), fs2)
    | Except.error e => (Except.error e, fs)
  else (Except.ok (), fs)

/-- Decides whether a character list contains a `<[^>]+>`-shaped
substring.  A match starts at a `'<'` whose immediate successor exists
and is not `'>'` (the class `[^>]+` needs at least one character) and
some `'>'` occurs further on: the first such `'>'` closes the span, and
everything before it is non-`'>'` by its minimality. -/
def hasTag : List Char → Bool
  | [] => false
  | c :: cs =>
    (c = '<' && (match cs with | x :: _ => x ≠ '>' | [] => false) &&
      cs.any (fun x => x = '>')) || hasTag cs

example : hasTag "ab<cd>e".toList = true := by decide
example : hasTag "ab<>cd>e<f".toList = false := by decide


/-! ### The structured document of the spec's round-trip example -/

/-- First top-level node of the spec's example document:
`{"type":"h1","children":[{"text":"Hi"}]}`. -/
def exampleNode1 : Json :=
  Json.obj [("type", Json.str "h1"), ("children", Json.arr [Json.obj [("text", Json.str "Hi")]])]

/-- Second top-level node of the spec's example document:
`{"type":"p","children":[{"text":"world","bold":true}]}`. -/
def exampleNode2 : Json :=
  Json.obj [("type", Json.str "p"),
    ("children", Json.arr [Json.obj [("text", Json.str "world"), ("bold", Json.bool true)]])]

/-- The spec example's raw content string (the JSON text the two nodes
above are parsed from). -/
def exampleContent : String :=
  "[\x7b\"type\":\"h1\",\"children\":[\x7b\"text\":\"Hi\"\x7d]\x7d, \x7b\"type\":\"p\",\"children\":[\x7b\"text\":\"world\",\"bold\":true\x7d]\x7d]"

/-- Claim C1, counterexample: on the spec's example document the
structured renderer yields neither `"# Hi\n**world**"` (the example
string trimmed) nor `"# Hi\n**world**\n"` — the heading and the bold
word are not separated by exactly one newline. -/
theorem c1_counterexample :
    (plate_json_to_markdown (some [exampleNode1, exampleNode2]) exampleContent
      == "# Hi\n**world**") = false ∧
    (plate_json_to_markdown (some [exampleNode1, exampleNode2]) exampleContent
      == "# Hi\n**world**\n") = false := by
  constructor <;> decide

/-- Claim C1, amended: rendering the spec's example document yields
`"# Hi\n\n**world**"`.  A `'\n'` is appended after every non-empty
top-level node rendering, whether or not that rendering already ends
with one, so the heading's own newline plus the appended separator
leave a blank line; the final result is trimmed. -/
theorem c1_amended :
    plate_json_to_markdown (some [exampleNode1, exampleNode2]) exampleContent
      = "# Hi\n\n**world**" := by
  decide

/-- Claim C3: when the detector classifies the content as structured
but the parse of it fails (`parsed = none`), conversion is not an error
and the result is exactly the HTML stripper applied to the same
content string. -/
theorem c3_parse_failure_fallback (content : String)
    (_hdetect : is_plate_json content = true) :
    plate_json_to_markdown none content = strip_html_to_markdown content := rfl

/-- Witness for C3 at the concrete content `"[oops]"`, which the
detector accepts but which is not valid JSON. -/
theorem c3_parse_failure_fallback_witness :
    is_plate_json "[oops]" = true ∧
    plate_json_to_markdown none "[oops]" = strip_html_to_markdown "[oops]" :=
  ⟨by decide, c3_parse_failure_fallback "[oops]" (by decide)⟩

/-- Claim C5: a cleanup call whose path does not contain the workspace
marker `"pawkit-drag"` returns success and leaves the file system
exactly as it was. -/
theorem c5_cleanup_no_marker_noop (fs : List String) (path : String)
    (h : hasSubstr path.toList "pawkit-drag".toList = false) :
    cleanup_drag_file fs path = (Except.ok (), fs) := by
  unfold cleanup_drag_file
  rw [h]
  simp

/-- Witness for C5: cleaning up `"/etc/passwd"` succeeds and deletes
nothing, even with the file present. -/
theorem c5_cleanup_no_marker_noop_witness :
    hasSubstr "/etc/passwd".toList "pawkit-drag".toList = false ∧
    cleanup_drag_file ["/etc/passwd", "/tmp/pawkit-drag/a.md"] "/etc/passwd"
      = (Except.ok (), ["/etc/passwd", "/tmp/pawkit-drag/a.md"]) :=
  ⟨by decide, c5_cleanup_no_marker_noop _ _ (by decide)⟩

/-- Claim C6: a successful `create_note_file` writes
`sanitize_filename(title) + ".md"` with body
`"# " + title + "\n\n" + rendered content` (the title in the body is
not sanitized), and on the spec's example this is the file
`"My Title_ v2.md"` with body `"# My Title: v2\n\nHello **World**"`. -/
theorem c6_create_note_file :
    (∀ parsed title content,
      create_note_file parsed title content =
        (sanitize_filename title ++ ".md",
          "# " ++ title ++ "\n\n" ++
            (if is_plate_json content then plate_json_to_markdown parsed content
              else strip_html_to_markdown content))) ∧
    create_note_file none "My Title: v2" "<p>Hello <strong>World</strong></p>"
      = ("My Title_ v2.md", "# My Title: v2\n\nHello **World**") :=
  ⟨fun _ _ _ => rfl, by decide⟩

/-- Claim C7, counterexample: text whose angle brackets arrive escaped
as entities does not survive the stripper — `"&lt;b&gt;"` is un-escaped
to `"<b>"` by the entity pass and then removed by the tag-stripping
pass, because the entity pass runs first. -/
theorem c7_counterexample :
    strip_html_to_markdown "stay &lt;b&gt; here" = "stay  here" ∧
    hasSubstr (strip_html_to_markdown "stay &lt;b&gt; here").toList "<b>".toList = false ∧
    hasSubstr (strip_html_to_markdown "stay &lt;b&gt; here").toList "&lt;b&gt;".toList = false := by
  refine ⟨by decide, by decide, by decide⟩

/-- Claim C7, amended: entity un-escaping is applied before the generic
`<...>` removal, and as a consequence originally-escaped bracketed text
such as `"&lt;b&gt;"` is un-escaped and then stripped as a tag (it does
not survive), while an escaped bracket that does not complete a
`<...>` shape does survive un-escaped. -/
theorem c7_amended :
    strip_html_to_markdown "&lt;b&gt;" = "" ∧
    strip_html_to_markdown "&lt;notatag" = "<notatag" := by
  constructor <;> decide

/-! ### Unfolding the fuelled node renderer -/

/-- Every JSON value has positive size. -/
theorem json_size_pos (j : Json) : 1 ≤ Json.size j := by
  cases j <;> simp only [Json.size] <;> omega

/-- A field found by lookup is no larger than the whole field list. -/
theorem lookupField_size_le (fs : List (String × Json)) (key : String) (v : Json)
    (h : lookupField fs key = some v) : Json.size v ≤ sizeObj fs := by
  induction fs with
  | nil => simp [lookupField] at h
  | cons kv rest ih =>
    obtain ⟨k, w⟩ := kv
    simp only [lookupField] at h
    by_cases hk : k = key
    · rw [if_pos hk] at h
      injection h with h2
      subst h2
      simp only [sizeObj]
      omega
    · rw [if_neg hk] at h
      have := ih h
      simp only [sizeObj]
      omega

/-- An array element is no larger than the array's contents. -/
theorem mem_size_le_arr (xs : List Json) (c : Json) (h : c ∈ xs) :
    Json.size c ≤ sizeArr xs := by
  induction xs with
  | nil => simp at h
  | cons x rest ih =>
    rcases List.mem_cons.mp h with h1 | h2
    · subst h1
      simp only [sizeArr]
      omega
    · have := ih h2
      simp only [sizeArr]
      omega

/-- A value whose `asArr` is `some xs` is the array `xs`. -/
theorem asArr_eq (v : Json) (xs : List Json) (h : Json.asArr v = some xs) :
    v = Json.arr xs := by
  cases v with
  | arr ys => simp only [Json.asArr, Option.some.injEq] at h; rw [h]
  | null => simp [Json.asArr] at h
  | bool b => simp [Json.asArr] at h
  | num n => simp [Json.asArr] at h
  | str s => simp [Json.asArr] at h
  | obj fs => simp [Json.asArr] at h

/-- A child reached through `childNodes` is strictly smaller than its
parent: the decreasing measure of the renderer's recursion. -/
theorem childNodes_size_lt (node : Json) (c : Json) (h : c ∈ childNodes node) :
    Json.size c < Json.size node := by
  cases node with
  | obj fs =>
    unfold childNodes at h
    cases hlf : Json.get (Json.obj fs) "children" with
    | none => rw [hlf] at h; simp at h
    | some v =>
      rw [hlf] at h
      simp only [Option.some_bind] at h
      cases hav : Json.asArr v with
      | none => rw [hav] at h; simp at h
      | some xs =>
        rw [hav] at h
        simp only [Option.getD_some] at h
        have h1 := mem_size_le_arr xs c h
        have h2 := lookupField_size_le fs "children" v (by simpa [Json.get] using hlf)
        have h3 : v = Json.arr xs := asArr_eq v xs hav
        subst h3
        simp only [Json.size] at h2 ⊢
        omega
  | null => simp [childNodes, Json.get] at h
  | bool b => simp [childNodes, Json.get] at h
  | num n => simp [childNodes, Json.get] at h
  | str s => simp [childNodes, Json.get] at h
  | arr xs => simp [childNodes, Json.get] at h

/-- Any two sufficient fuels give the renderer the same output. -/
theorem renderNodeF_congr (f1 f2 : Nat) (node : Json) (d : Nat)
    (h1 : Json.size node ≤ f1) (h2 : Json.size node ≤ f2) :
    renderNodeF f1 node d = renderNodeF f2 node d := by
  induction f1 generalizing node f2 d with
  | zero => have := json_size_pos node; omega
  | succ g1 ih =>
    cases f2 with
    | zero => have := json_size_pos node; omega
    | succ g2 =>
      cases htext : (Json.get node "text").bind Json.asStr with
      | some t => simp only [renderNodeF, htext]
      | none =>
        simp only [renderNodeF, htext]
        congr 1
        congr 1
        apply List.map_congr_left
        intro c hc
        have hlt := childNodes_size_lt node c hc
        exact ih g2 c (d + 1) (by omega) (by omega)

/-- On a text leaf (`"text"` field holding a string) the renderer is
the mark-wrapping branch. -/
theorem plate_text (node : Json) (d : Nat) (t : String)
    (h : (Json.get node "text").bind Json.asStr = some t) :
    plate_node_to_markdown node d = renderText node t := by
  unfold plate_node_to_markdown
  obtain ⟨m, hm⟩ : ∃ m, Json.size node = m + 1 :=
    ⟨Json.size node - 1, by have := json_size_pos node; omega⟩
  rw [hm]
  simp only [renderNodeF, h]

/-- On a non-text node the renderer is the element dispatch over the
recursively rendered children. -/
theorem plate_elem (node : Json) (d : Nat)
    (h : (Json.get node "text").bind Json.asStr = none) :
    plate_node_to_markdown node d =
      renderElement node
        (String.join ((childNodes node).map (fun c => plate_node_to_markdown c (d + 1)))) := by
  unfold plate_node_to_markdown
  obtain ⟨m, hm⟩ : ∃ m, Json.size node = m + 1 :=
    ⟨Json.size node - 1, by have := json_size_pos node; omega⟩
  rw [hm]
  simp only [renderNodeF, h]
  congr 1
  congr 1
  apply List.map_congr_left
  intro c hc
  have hlt := childNodes_size_lt node c hc
  exact renderNodeF_congr m (Json.size c) c (d + 1) (by omega) (le_refl _)

/-- Claim C2: on any text node, whatever the order of the mark fields
in the input object, the renderer is the spec's sequential wrap in the
fixed order bold, italic, code, strikethrough, highlight — bold
innermost, highlight outermost — applied to exactly the marks that are
set.  The statement depends only on the node's field lookups, so any
permutation of the fields gives the same result. -/
theorem c2_mark_order (node : Json) (d : Nat) (t : String)
    (ht : (Json.get node "text").bind Json.asStr = some t) :
    plate_node_to_markdown node d =
      specMarkWrap t (getBoolD node "bold") (getBoolD node "italic") (getBoolD node "code")
        (getBoolD node "strikethrough") (getBoolD node "highlight") := by
  rw [plate_text node d t ht]
  rfl

/-- A text node whose mark fields arrive in scrambled order:
highlight first, then the text, then italic, then bold. -/
def c2WitnessNode : Json :=
  Json.obj [("highlight", Json.bool true), ("text", Json.str "t"),
    ("italic", Json.bool true), ("bold", Json.bool true)]

/-- Witness for C2: bold+italic+highlight render as `==***t***==`,
with the bold stars adjacent to the text. -/
theorem c2_mark_order_witness :
    plate_node_to_markdown c2WitnessNode 0 = "==***t***==" :=
  (c2_mark_order c2WitnessNode 0 "t" (by decide)).trans (by decide)

/-- Claim C9: an element node whose type tag is none of the recognized
tags renders as the plain concatenation of its children's renderings,
and with no (or non-array) children it renders as the empty string. -/
theorem c9_unknown_type_passthrough (node : Json) (d : Nat)
    (htext : (Json.get node "text").bind Json.asStr = none)
    (htype : getStrD node "type" "" ∉
      (["p", "h1", "h2", "h3", "h4", "h5", "h6", "blockquote", "ul", "ol", "li", "lic",
        "action_item", "code_block", "code_line", "link", "a", "hr", "img", "image",
        "mention", "callout"] : List String)) :
    plate_node_to_markdown node d =
      String.join ((childNodes node).map (fun c => plate_node_to_markdown c (d + 1))) ∧
    ((Json.get node "children").bind Json.asArr = none →
      plate_node_to_markdown node d = "") := by
  have hmain : plate_node_to_markdown node d =
      String.join ((childNodes node).map (fun c => plate_node_to_markdown c (d + 1))) := by
    rw [plate_elem node d htext]
    simp only [renderElement]
    split <;> simp_all
  refine ⟨hmain, fun hch => ?_⟩
  rw [hmain]
  simp only [childNodes, hch, Option.getD_none, List.map_nil]
  rfl

/-- An element with an unrecognized tag and two text children. -/
def c9NodeA : Json :=
  Json.obj [("type", Json.str "custom_block"),
    ("children", Json.arr [Json.obj [("text", Json.str "a")],
      Json.obj [("text", Json.str "b"), ("bold", Json.bool true)]])]

/-- An element with an unrecognized tag and no children at all. -/
def c9NodeB : Json := Json.obj [("type", Json.str "custom")]

/-- Witness for C9: the unknown-tag node passes its children through
unchanged, and the childless unknown-tag node renders as `""`. -/
theorem c9_unknown_type_passthrough_witness :
    plate_node_to_markdown c9NodeA 0 = "a**b**" ∧ plate_node_to_markdown c9NodeB 0 = "" :=
  ⟨((c9_unknown_type_passthrough c9NodeA 0 rfl (by decide)).1).trans (by decide),
   (c9_unknown_type_passthrough c9NodeB 0 rfl (by decide)).2 rfl⟩

/-- Claim C10: a node whose `"text"` field holds a string is a text
leaf — its rendering is the mark-wrapped text, ignoring any `"type"`
or `"children"` fields on the same node — while a node whose `"text"`
field is present but not a string is dispatched as an element node. -/
theorem c10_text_leaf_priority (node : Json) (d : Nat) :
    (∀ t : String, Json.get node "text" = some (Json.str t) →
      plate_node_to_markdown node d =
        specMarkWrap t (getBoolD node "bold") (getBoolD node "italic") (getBoolD node "code")
          (getBoolD node "strikethrough") (getBoolD node "highlight")) ∧
    (∀ v : Json, Json.get node "text" = some v → Json.asStr v = none →
      plate_node_to_markdown node d =
        renderElement node
          (String.join ((childNodes node).map (fun c => plate_node_to_markdown c (d + 1))))) := by
  constructor
  · intro t hget
    have ht : (Json.get node "text").bind Json.asStr = some t := by
      rw [hget]; rfl
    rw [plate_text node d t ht]
    rfl
  · intro v hget hstr
    have ht : (Json.get node "text").bind Json.asStr = none := by
      rw [hget, Option.some_bind, hstr]
    exact plate_elem node d ht

/-- A node carrying a string `"text"` plus `"type"` and `"children"`
fields that a text leaf must ignore. -/
def c10NodeA : Json :=
  Json.obj [("text", Json.str "hi"), ("type", Json.str "h1"),
    ("children", Json.arr [Json.obj [("text", Json.str "ZZZ")]])]

/-- A node whose `"text"` field is the number 5, so not a text leaf. -/
def c10NodeB : Json :=
  Json.obj [("text", Json.num 5), ("type", Json.str "p"),
    ("children", Json.arr [Json.obj [("text", Json.str "x")]])]

/-- Witness for C10: the string-text node renders as `"hi"` (its `h1`
type and its children are ignored), and the number-text node is
dispatched as a `p` element rendering its children. -/
theorem c10_text_leaf_priority_witness :
    plate_node_to_markdown c10NodeA 0 = "hi" ∧ plate_node_to_markdown c10NodeB 0 = "x\n" :=
  ⟨((c10_text_leaf_priority c10NodeA 0).1 "hi" rfl).trans (by decide),
   ((c10_text_leaf_priority c10NodeB 0).2 (Json.num 5) rfl rfl).trans (by decide)⟩

/-! ### The sanitizer is idempotent and forbidden-free (claim C4) -/

/-- Sanitizing never yields a forbidden character. -/
theorem sanitizeChar_not_forbidden (c : Char) : isForbiddenChar (sanitizeChar c) = false := by
  by_cases h : isForbiddenChar c = true
  · have h2 : sanitizeChar c = '_' := by simp [sanitizeChar, h]
    rw [h2]
    decide
  · have h2 : sanitizeChar c = c := by simp [sanitizeChar, h]
    rw [h2]
    simpa using h

/-- Sanitizing fixes every non-forbidden character. -/
theorem sanitizeChar_id (c : Char) (h : isForbiddenChar c = false) : sanitizeChar c = c := by
  simp [sanitizeChar, h]

/-- The head surviving a `dropWhile` fails the predicate. -/
theorem head_dropWhile_false (p : Char → Bool) (m : List Char) (a : Char)
    (h : (List.dropWhile p m).head? = some a) : p a = false := by
  induction m with
  | nil => simp at h
  | cons c cs ih =>
    rw [List.dropWhile_cons] at h
    by_cases hc : p c = true
    · rw [if_pos hc] at h
      exact ih h
    · rw [if_neg hc] at h
      simp only [List.head?_cons, Option.some.injEq] at h
      subst h
      simpa using hc

/-- A non-empty `dropWhile` keeps the original last element. -/
theorem getLast_dropWhile_some (p : Char → Bool) (m : List Char) (a : Char)
    (h : (List.dropWhile p m).getLast? = some a) : m.getLast? = some a := by
  have hne : List.dropWhile p m ≠ [] := by
    intro h0
    rw [h0] at h
    simp at h
  have hsplit := List.takeWhile_append_dropWhile p m
  calc m.getLast? = (List.takeWhile p m ++ List.dropWhile p m).getLast? := by rw [hsplit]
    _ = some a := by rw [List.getLast?_append_of_ne_nil _ hne, h]

/-- A list whose first and last characters are not whitespace is fixed
by `trimList`. -/
theorem trimList_eq_self (m : List Char)
    (h1 : ∀ a, m.head? = some a → rustIsWhitespace a = false)
    (h2 : ∀ a, m.getLast? = some a → rustIsWhitespace a = false) : trimList m = m := by
  unfold trimList
  have hd : List.dropWhile rustIsWhitespace m = m := by
    cases m with
    | nil => rfl
    | cons c cs =>
      have := h1 c rfl
      simp [List.dropWhile_cons, this]
  rw [hd]
  have hd2 : List.dropWhile rustIsWhitespace m.reverse = m.reverse := by
    cases hm : m.reverse with
    | nil => rfl
    | cons c cs =>
      have hc : m.getLast? = some c := by
        rw [← List.head?_reverse, hm]
        rfl
      have := h2 c hc
      simp [List.dropWhile_cons, this]
  rw [hd2, List.reverse_reverse]

/-- Trimming is idempotent. -/
theorem trimList_idem (l : List Char) : trimList (trimList l) = trimList l := by
  apply trimList_eq_self
  · intro a ha
    unfold trimList at ha
    rw [List.head?_reverse] at ha
    have ha2 := getLast_dropWhile_some rustIsWhitespace _ a ha
    rw [List.getLast?_reverse] at ha2
    exact head_dropWhile_false rustIsWhitespace _ a ha2
  · intro a ha
    unfold trimList at ha
    rw [List.getLast?_reverse] at ha
    exact head_dropWhile_false rustIsWhitespace _ a ha

/-- Trimming only keeps characters of the original list. -/
theorem mem_trimList {c : Char} {l : List Char} (h : c ∈ trimList l) : c ∈ l := by
  unfold trimList at h
  rw [List.mem_reverse] at h
  have h2 : c ∈ (List.dropWhile rustIsWhitespace l).reverse :=
    List.Sublist.mem h (List.dropWhile_sublist _)
  rw [List.mem_reverse] at h2
  exact List.Sublist.mem h2 (List.dropWhile_sublist _)

/-- Trimming never lengthens a list. -/
theorem trimList_length_le (l : List Char) : (trimList l).length ≤ l.length := by
  unfold trimList
  rw [List.length_reverse]
  have h1 := (@List.dropWhile_sublist Char ((List.dropWhile rustIsWhitespace l).reverse)
    rustIsWhitespace).length_le
  rw [List.length_reverse] at h1
  have h2 := (@List.dropWhile_sublist Char l rustIsWhitespace).length_le
  omega

/-- Characters of a sanitized name are never forbidden. -/
theorem sanChars_not_forbidden {c : Char} {l : List Char}
    (h : c ∈ trimList ((l.map sanitizeChar).take 100)) : isForbiddenChar c = false := by
  have h1 := mem_trimList h
  have h2 := (List.take_sublist _ _).subset h1
  obtain ⟨a, _, ha⟩ := List.mem_map.mp h2
  rw [← ha]
  exact sanitizeChar_not_forbidden a

/-- A sanitized name has at most 100 characters. -/
theorem sanChars_len (l : List Char) :
    (trimList ((l.map sanitizeChar).take 100)).length ≤ 100 := by
  have h1 := trimList_length_le ((l.map sanitizeChar).take 100)
  have h2 : ((l.map sanitizeChar).take 100).length ≤ 100 := by
    rw [List.length_take]
    omega
  omega

/-- Claim C4: `sanitize_filename` is idempotent, its output contains
none of the nine forbidden characters, and the output is the first 100
mapped characters trimmed of surrounding whitespace (so it is at most
100 characters long and is its own trim). -/
theorem c4_sanitize_filename (x : String) :
    sanitize_filename (sanitize_filename x) = sanitize_filename x ∧
    (sanitize_filename x).toList.all (fun c => !(isForbiddenChar c)) = true ∧
    (sanitize_filename x).toList.length ≤ 100 ∧
    rustTrim (sanitize_filename x) = sanitize_filename x := by
  refine ⟨?_, ?_, ?_, ?_⟩
  · show String.mk (trimList (((trimList ((x.toList.map sanitizeChar).take 100)).map
      sanitizeChar).take 100)) = sanitize_filename x
    have hmap : (trimList ((x.toList.map sanitizeChar).take 100)).map sanitizeChar
        = trimList ((x.toList.map sanitizeChar).take 100) := by
      have h1 := List.map_congr_left
        (fun c hc => by rw [sanitizeChar_id c (sanChars_not_forbidden hc)]; rfl :
          ∀ c ∈ trimList ((x.toList.map sanitizeChar).take 100), sanitizeChar c = id c)
      rw [h1, List.map_id]
    rw [hmap, List.take_of_length_le (sanChars_len x.toList)]
    show String.mk (trimList (trimList ((x.toList.map sanitizeChar).take 100))) = _
    rw [trimList_idem]
    rfl
  · rw [List.all_eq_true]
    intro c hc
    have := sanChars_not_forbidden (show c ∈ trimList ((x.toList.map sanitizeChar).take 100)
      from hc)
    rw [this]
    rfl
  · exact sanChars_len x.toList
  · show String.mk (trimList (trimList ((x.toList.map sanitizeChar).take 100))) = _
    rw [trimList_idem]
    rfl

/-! ### The stripper leaves no tag-shaped substring (claim C8) -/

/-- A tag-free list stays tag-free after dropping its head. -/
theorem hasTag_tail {c : Char} {cs : List Char} (h : hasTag (c :: cs) = false) :
    hasTag cs = false := by
  simp only [hasTag, Bool.or_eq_false_iff] at h
  exact h.2

/-- A list without `'>'` has no tag shape. -/
theorem noGt_hasTag (l : List Char) (h : ∀ x ∈ l, x ≠ '>') : hasTag l = false := by
  induction l with
  | nil => rfl
  | cons c cs ih =>
    simp only [hasTag, Bool.or_eq_false_iff]
    refine ⟨?_, ih (fun x hx => h x (List.mem_cons_of_mem c hx))⟩
    have hany : cs.any (fun x => decide (x = '>')) = false := by
      rw [List.any_eq_false]
      intro x hx
      simpa using h x (List.mem_cons_of_mem c hx)
    rw [hany]
    simp

/-- A tag shape survives appending on the right. -/
theorem hasTag_append_left (l t : List Char) (h : hasTag l = true) :
    hasTag (l ++ t) = true := by
  induction l with
  | nil => simp [hasTag] at h
  | cons c cs ih =>
    simp only [hasTag, Bool.or_eq_true] at h
    rw [List.cons_append]
    simp only [hasTag, Bool.or_eq_true]
    rcases h with h | h
    · left
      simp only [Bool.and_eq_true] at h
      obtain ⟨⟨hc, hhead⟩, hany⟩ := h
      simp only [Bool.and_eq_true]
      refine ⟨⟨hc, ?_⟩, ?_⟩
      · cases cs with
        | nil => simp at hhead
        | cons x cs2 => simpa using hhead
      · rw [List.any_append, hany]
        rfl
    · exact Or.inr (ih h)

/-- A tag-free concatenation has a tag-free left part. -/
theorem hasTag_of_append (l t : List Char) (h : hasTag (l ++ t) = false) :
    hasTag l = false := by
  cases hl : hasTag l with
  | false => rfl
  | true => rw [hasTag_append_left l t hl] at h; exact h.symm ▸ rfl

/-- `dropWhile` preserves tag-freeness. -/
theorem hasTag_dropWhile (p : Char → Bool) (l : List Char) (h : hasTag l = false) :
    hasTag (List.dropWhile p l) = false := by
  induction l with
  | nil => rfl
  | cons c cs ih =>
    rw [List.dropWhile_cons]
    by_cases hc : p c = true
    · rw [if_pos hc]
      exact ih (hasTag_tail h)
    · rwa [if_neg hc]

/-- Trimming preserves tag-freeness. -/
theorem trimList_hasTag {l : List Char} (h : hasTag l = false) :
    hasTag (trimList l) = false := by
  unfold trimList
  refine hasTag_of_append _
    ((List.takeWhile rustIsWhitespace ((List.dropWhile rustIsWhitespace l).reverse)).reverse) ?_
  rw [← List.reverse_append, List.takeWhile_append_dropWhile, List.reverse_reverse]
  exact hasTag_dropWhile rustIsWhitespace l h

/-- Prepending newlines changes no tag shape: a newline cannot open a
span and is not `'>'`. -/
theorem hasTag_replicate_nl (k : Nat) (m : List Char) :
    hasTag (List.replicate k '\n' ++ m) = hasTag m := by
  induction k with
  | zero => rw [List.replicate_zero, List.nil_append]
  | succ j ih =>
    rw [List.replicate_succ, List.cons_append]
    simp only [hasTag, ih]
    simp

/-- Newline collapsing introduces no `'>'`. -/
theorem collapseCore_no_gt (l : List Char) (h : ('>' : Char) ∉ l) (k : Nat) :
    ('>' : Char) ∉ collapseCore l k := by
  induction l generalizing k with
  | nil =>
    simp only [collapseCore]
    intro hmem
    have := List.eq_of_mem_replicate hmem
    simp at this
  | cons c cs ih =>
    simp only [collapseCore]
    by_cases hc : c = '\n'
    · rw [if_pos hc]
      exact ih (fun hm => h (List.mem_cons_of_mem c hm)) (k + 1)
    · rw [if_neg hc]
      intro hmem
      rcases List.mem_append.mp hmem with hm | hm
      · have := List.eq_of_mem_replicate hm
        simp at this
      · rcases List.mem_cons.mp hm with hm2 | hm2
        · exact h (hm2 ▸ List.mem_cons_self c cs)
        · exact ih (fun hm3 => h (List.mem_cons_of_mem c hm3)) 0 hm2

/-- Newline collapsing preserves tag-freeness. -/
theorem collapseCore_hasTag (l : List Char) (h : hasTag l = false) (k : Nat) :
    hasTag (collapseCore l k) = false := by
  induction l generalizing k with
  | nil =>
    simp only [collapseCore]
    apply noGt_hasTag
    intro x hx
    have := List.eq_of_mem_replicate hx
    simp [this]
  | cons c cs ih =>
    have hcs := hasTag_tail h
    simp only [collapseCore]
    by_cases hc : c = '\n'
    · rw [if_pos hc]
      exact ih hcs (k + 1)
    · rw [if_neg hc]
      rw [hasTag_replicate_nl]
      simp only [hasTag, Bool.or_eq_false_iff]
      refine ⟨?_, ih hcs 0⟩
      by_cases hlt : c = '<'
      · subst hlt
        simp only [hasTag, Bool.or_eq_false_iff] at h
        rcases Bool.and_eq_false_iff.mp h.1 with h1 | hany
        · rcases Bool.and_eq_false_iff.mp h1 with h2 | hhead
          · simp at h2
          · cases cs with
            | nil => simp [collapseCore]
            | cons x cs2 =>
              have hx : x = '>' := by simpa using hhead
              subst hx
              have hcc : collapseCore ('>' :: cs2) 0 = '>' :: collapseCore cs2 0 := by
                simp [collapseCore]
              rw [hcc]
              simp
        · have hnot : ('>' : Char) ∉ cs := by
            intro hm
            rw [List.any_eq_false] at hany
            have := hany '>' hm
            simp at this
          have hng := collapseCore_no_gt cs hnot 0
          have hany2 : (collapseCore cs 0).any (fun x => decide (x = '>')) = false := by
            rw [List.any_eq_false]
            intro x hx hEq
            have hx2 : x = '>' := by simpa using hEq
            exact hng (hx2 ▸ hx)
          rw [hany2]
          simp
      · simp [hlt]

/-- The tag-stripping pass yields a tag-free list from any input, for
any scan state whose pending buffer holds no `'>'` (the scanner never
pushes one). -/
theorem stripTagsCore_hasTag (l : List Char) :
    ∀ st : Option (List Char), (∀ buf, st = some buf → ('>' : Char) ∉ buf) →
      hasTag (stripTagsCore l st) = false := by
  induction l with
  | nil =>
    intro st h
    cases st with
    | none => rfl
    | some buf =>
      have hbuf := h buf rfl
      simp only [stripTagsCore]
      simp only [hasTag, Bool.or_eq_false_iff]
      constructor
      · have hany : buf.reverse.any (fun x => decide (x = '>')) = false := by
          rw [List.any_eq_false]
          intro x hx hEq
          have hx2 : x = '>' := by simpa using hEq
          exact hbuf (hx2 ▸ List.mem_reverse.mp hx)
        rw [hany]
        simp
      · exact noGt_hasTag _ (fun x hx hEq => hbuf (hEq ▸ List.mem_reverse.mp hx))
  | cons c cs ih =>
    intro st h
    cases st with
    | none =>
      simp only [stripTagsCore]
      by_cases hc : c = '<'
      · rw [if_pos hc]
        exact ih (some []) (fun buf hb => by injection hb with hb2; subst hb2; simp)
      · rw [if_neg hc]
        simp only [hasTag, Bool.or_eq_false_iff]
        refine ⟨?_, ih none (by simp)⟩
        simp [hc]
    | some buf =>
      have hbuf := h buf rfl
      simp only [stripTagsCore]
      by_cases hc : c = '>'
      · rw [if_pos hc]
        cases buf with
        | nil =>
          simp only [hasTag, Bool.or_eq_false_iff]
          refine ⟨by simp, ?_, ih none (by simp)⟩
          simp
        | cons b bs =>
          exact ih none (by simp)
      · rw [if_neg hc]
        refine ih (some (c :: buf)) ?_
        intro buf2 hb
        injection hb with hb2
        subst hb2
        intro hm
        rcases List.mem_cons.mp hm with h1 | h2
        · exact hc h1.symm
        · exact hbuf h2

/-- The three final passes of the stripper — tag removal, newline
collapsing, trim — leave no tag-shaped substring, whatever list the
substitution passes produced. -/
theorem strip_pipeline_hasTag (m : List Char) :
    hasTag (rustTrim (String.mk (collapseCore
      (String.mk (stripTagsCore m none)).toList 0))).toList = false := by
  show hasTag (trimList (collapseCore (stripTagsCore m none) 0)) = false
  exact trimList_hasTag (collapseCore_hasTag _ (stripTagsCore_hasTag m none (by simp)) 0)

/-- Claim C8: the HTML stripper is a total function and its output
contains no residual `<...>`-shaped substring: no `'<'` followed by one
or more non-`'>'` characters and then a `'>'` survives the
tag-stripping pass, the newline collapse and the final trim. -/
theorem c8_strip_no_residual_tags (s : String) :
    hasTag (strip_html_to_markdown s).toList = false := by
  simp only [strip_html_to_markdown]
  exact strip_pipeline_hasTag _
